import Mathlib

/-!
Verification of the RaceMind strategy engine.

The definitions below are a shallow embedding of the repository's source:
`StrategyEngine` (tyre compounds, stint cost model, candidate partition
generator, compound assigner, best-strategy search, clock formatting),
`OpenF1` (pit-loss and degradation inference from telemetry laps) and the
dynamic track-profile synthesis in `App.tsx`.  JavaScript numbers are
modelled as rationals (`ℚ`), integer-valued quantities (lap counts) as `ℤ`,
fallible results as `Option`/`Except`.
-/

namespace RaceMind

/-- The three dry tyre compounds, `TyreCompound` in the source. -/
inductive TyreCompound where
  | SOFT
  | MEDIUM
  | HARD
deriving DecidableEq, Repr

/-- `tyresOrder` from the source: the enumeration order used everywhere. -/
def tyresOrder : List TyreCompound := [.SOFT, .MEDIUM, .HARD]

/-- `StaticTrackData` from the source.  `degradation_per_lap_seconds` is a
`Record<TyreCompound, number>` with all three keys present by typing, so it
is modelled as a total function. -/
structure StaticTrackData where
  laps : Int
  pit_loss_seconds : ℚ
  base_lap_time_seconds : ℚ
  degradation_per_lap_seconds : TyreCompound → ℚ

/-- `TrackDictionary = Record<string, StaticTrackData>`, modelled as an
association list with lookup on the first matching key. -/
abbrev TrackDictionary := List (String × StaticTrackData)

/-- `StrategyStint` from the source. -/
structure StrategyStint where
  compound : TyreCompound
  laps : Int
deriving DecidableEq, Repr

/-- `StrategyPlan` from the source (the optional `notes` field is never set
by the engine and is omitted). -/
structure StrategyPlan where
  stints : List StrategyStint
  totalTimeSeconds : ℚ
  numStops : Int
deriving DecidableEq, Repr

/-- The `mode` tag `"A" | "B" | "C"`. -/
inductive Mode where
  | A
  | B
  | C
deriving DecidableEq, Repr

/-- `StrategyEngineInput` from the source; optional fields are `Option`. -/
structure StrategyEngineInput where
  trackName : String
  raceYear : Int
  driverName : Option String := none
  rainProbabilityPct : Option ℚ := none
  mode : Option Mode := none
  tracksData : Option TrackDictionary := none

/-- `computeStintTimeSeconds` from the source:
degradation contributes `degPerLap * (laps * (laps + 1)) / 2`, the fuel term
`fuelPenaltyPerLap * (laps * (laps - 1)) / 2`, plus `laps * baseLap`.
The default `fuelPenaltyPerLap = 0.015 = 15/1000`. -/
def computeStintTimeSeconds (baseLap degPerLap : ℚ) (laps : Int)
    (fuelPenaltyPerLap : ℚ := 15 / 1000) : ℚ :=
  let degradationSum := degPerLap * ((laps : ℚ) * ((laps : ℚ) + 1)) / 2
  let fuelSum := fuelPenaltyPerLap * ((laps : ℚ) * ((laps : ℚ) - 1)) / 2
  (laps : ℚ) * baseLap + degradationSum + fuelSum

/-- All compound sequences of a given length, in the enumeration order of the
source's `recurse` in `assignCompounds`: the compound of the first stint
varies slowest, each position running through `tyresOrder`. -/
def allCompoundSeqs : Nat → List (List TyreCompound)
  | 0 => [[]]
  | n + 1 => tyresOrder.flatMap fun c => (allCompoundSeqs n).map fun s => c :: s

/-- `new Set(path).size`: the number of distinct compounds in a sequence. -/
def distinctCount (l : List TyreCompound) : Nat := l.dedup.length

/-- `assignCompounds` from the source: the full `3^k` Cartesian enumeration,
keeping exactly the sequences with at least two distinct compounds. -/
def assignCompounds (numStints : Nat) : List (List TyreCompound) :=
  (allCompoundSeqs numStints).filter fun p => 2 ≤ distinctCount p

/-- The offsets `-3 … 3` iterated by the candidate generator's loops. -/
def deltaRange : List Int := [-3, -2, -1, 0, 1, 2, 3]

/-- The source deduplicates candidates through a `Map` keyed on
`seq.join('-')`.  On canonically rendered integers that key is injective (a
`'-'` preceded by a digit is a separator, any other `'-'` is a sign), and
`Map.set` keeps the insertion position of the first occurrence of a key, so
the deduplication is: keep the first occurrence of each sequence. -/
def dedupKeepFirst {α : Type _} [DecidableEq α] (l : List α) : List α :=
  l.foldl (fun uniq seq => if seq ∈ uniq then uniq else uniq ++ [seq]) []

/-- The 1-stop loop of `generateCandidateStints`: halves `± 3` laps, kept
only when the remainder is positive.  `Math.floor` of a quotient of integers
is `Int.fdiv`. -/
def twoStintCandidates (totalLaps : Int) : List (List Int) :=
  deltaRange.filterMap fun delta =>
    let a := max 1 (totalLaps.fdiv 2 + delta)
    let b := totalLaps - a
    if 0 < b then some [a, b] else none

/-- The 2-stop loop of `generateCandidateStints`: thirds `± 3` laps each for
the first two stints, kept only when the remainder is positive. -/
def threeStintCandidates (totalLaps : Int) : List (List Int) :=
  deltaRange.flatMap fun d1 => deltaRange.filterMap fun d2 =>
    let a := max 1 (totalLaps.fdiv 3 + d1)
    let b := max 1 (totalLaps.fdiv 3 + d2)
    let c := totalLaps - a - b
    if 0 < c then some [a, b, c] else none

/-- `Math.max(1, Math.floor(totalLaps / 4))`. -/
def quarterLen (totalLaps : Int) : Int := max 1 (totalLaps.fdiv 4)

/-- The 3-stop quarter-split baseline of `generateCandidateStints`, pushed
without any positivity check on its last entry. -/
def fourStintCandidate (totalLaps : Int) : List Int :=
  [quarterLen totalLaps, quarterLen totalLaps, quarterLen totalLaps,
   totalLaps - 3 * quarterLen totalLaps]

/-- `generateCandidateStints` from the source: the four generation blocks in
push order, deduplicated. -/
def generateCandidateStints (totalLaps : Int) : List (List Int) :=
  dedupKeepFirst
    (twoStintCandidates totalLaps ++ threeStintCandidates totalLaps
      ++ [fourStintCandidate totalLaps] ++ [[totalLaps]])

/-- The error taxonomy of `predictBestStrategy` (it `throw`s three kinds of
`Error`; modelled as `Except` values). -/
inductive StrategyError where
  | missingTracksData
  | unknownTrack (name : String)
  | searchFailed
deriving DecidableEq, Repr

/-- One candidate plan as built inside the search loop of
`predictBestStrategy`: per-stint costs summed in loop order plus
`numStops * pit_loss_seconds`.  The source maps over `compounds` indexing
into `lapsPerStint`; both have the same length at every call site, which the
zip reproduces. -/
def scorePlan (track : StaticTrackData) (lapsPerStint : List Int)
    (compounds : List TyreCompound) : StrategyPlan :=
  let total := (compounds.zip lapsPerStint).foldl
    (fun acc p =>
      acc + computeStintTimeSeconds track.base_lap_time_seconds
        (track.degradation_per_lap_seconds p.1) p.2) 0
  let numStops : Int := (lapsPerStint.length : Int) - 1
  { stints := (compounds.zip lapsPerStint).map fun p => ⟨p.1, p.2⟩
    totalTimeSeconds := total + numStops * track.pit_loss_seconds
    numStops := numStops }

/-- `if (!best || plan.totalTimeSeconds < best.totalTimeSeconds) best = plan`:
strict improvement replaces the incumbent, a tie keeps the first plan. -/
def betterPlan (best : Option StrategyPlan) (plan : StrategyPlan) : StrategyPlan :=
  match best with
  | none => plan
  | some b => if plan.totalTimeSeconds < b.totalTimeSeconds then plan else b

/-- The inner assignment loop of `predictBestStrategy`, including the early
`break` once the freshly scored plan has `numStops > best.numStops + 1`
(the comparison runs against the already-updated incumbent).  The source's
`sort` of the assignments uses a comparator that is constantly `0`, so with
a stable sort the order is unchanged and the sort is a no-op. -/
def runAssignments (track : StaticTrackData) (lapsPerStint : List Int) :
    List (List TyreCompound) → Option StrategyPlan → Option StrategyPlan
  | [], best => best
  | cs :: rest, best =>
    let plan := scorePlan track lapsPerStint cs
    let b := betterPlan best plan
    if b.numStops + 1 < plan.numStops then some b
    else runAssignments track lapsPerStint rest (some b)

/-- The outer loop of `predictBestStrategy` over candidate partitions. -/
def searchBest (track : StaticTrackData) (partitions : List (List Int)) :
    Option StrategyPlan :=
  partitions.foldl
    (fun best lapsPerStint =>
      runAssignments track lapsPerStint (assignCompounds lapsPerStint.length) best)
    none

/-- `predictBestStrategy` from the source.  Only `trackName` and `tracksData`
are read from the input. -/
def predictBestStrategy (input : StrategyEngineInput) :
    Except StrategyError StrategyPlan :=
  match input.tracksData with
  | none => .error .missingTracksData
  | some tracksData =>
    match tracksData.lookup input.trackName with
    | none => .error (.unknownTrack input.trackName)
    | some track =>
      match searchBest track (generateCandidateStints track.laps) with
      | none => .error .searchFailed
      | some best => .ok best

/-- `OpenF1Lap` from the source (the fields the calibrators read; sector
durations and session key are never used).  `duration` and `tyre` are
optional. -/
structure OpenF1Lap where
  lap_number : Int
  driver_number : Int
  duration : Option ℚ := none
  tyre : Option String := none
deriving DecidableEq, Repr

/-- Insertion of one element into an ascending list; `insertionSortAsc` is a
model of `[...durations].sort((a, b) => a - b)`: on numbers the comparator
induces the unique ascending reordering, which any correct sort produces. -/
def insertAsc (x : ℚ) : List ℚ → List ℚ
  | [] => [x]
  | y :: ys => if x ≤ y then x :: y :: ys else y :: insertAsc x ys

/-- Ascending sort of rational durations. -/
def insertionSortAsc (l : List ℚ) : List ℚ := l.foldr insertAsc []

/-- The flying-lap band filter of `inferPitLossFromLaps`: keep `duration`
values that are present (`typeof x === "number"`) and strictly between 30
and 200. -/
def bandDurations (laps : List OpenF1Lap) : List ℚ :=
  (laps.filterMap OpenF1Lap.duration).filter fun x => decide (30 < x ∧ x < 200)

/-- `inferPitLossFromLaps` from the source: `null` for an empty lap list or
fewer than 10 in-band durations, otherwise `max − median` of the sorted
in-band durations clamped by `Math.max(15, Math.min(30, ·))`. -/
def inferPitLossFromLaps (laps : List OpenF1Lap) : Option ℚ :=
  if laps.isEmpty then none
  else
    let durations := bandDurations laps
    if durations.length < 10 then none
    else
      let sorted := insertionSortAsc durations
      let median := sorted.getD (sorted.length / 2) 0
      let mx := sorted.getD (sorted.length - 1) 0
      some (max 15 (min 30 (mx - median)))

/-- The group key of `inferDegradationFromLaps`:
`(l.tyre || '').toUpperCase()`. -/
def lapTyreKey (l : OpenF1Lap) : String := (l.tyre.getD "").toUpper

/-- The `continue` condition of the grouping loop:
`if (!t || !l.duration || !l.lap_number) continue` — JavaScript falsiness
discards an empty key, an absent or zero duration, and a zero lap number. -/
def lapSkipped (l : OpenF1Lap) : Bool :=
  lapTyreKey l = "" ∨ l.duration.getD 0 = 0 ∨ l.lap_number = 0

/-- `Map.get(t)!.push(l)` / `Map.set(t, [])`: append a lap to its group,
creating the group at the end on first sight of the key (insertion order). -/
def addToGroups (gs : List (String × List OpenF1Lap)) (t : String)
    (l : OpenF1Lap) : List (String × List OpenF1Lap) :=
  if gs.any fun p => p.1 = t then
    gs.map fun p => if p.1 = t then (p.1, p.2 ++ [l]) else p
  else gs ++ [(t, [l])]

/-- The `byTyre` map of `inferDegradationFromLaps`, in insertion order. -/
def tyreGroups (laps : List OpenF1Lap) : List (String × List OpenF1Lap) :=
  laps.foldl (fun gs l => if lapSkipped l then gs else addToGroups gs (lapTyreKey l) l) []

/-- The regression numerator and denominator of one compound group:
`num = Σ (x−x̄)(y−ȳ)`, `den = Σ (x−x̄)²` over `(lap_number, duration)`
pairs, accumulated in loop order.  Means divide by the group size. -/
def groupNumDen (arr : List OpenF1Lap) : ℚ × ℚ :=
  let xs := arr.map fun l => (l.lap_number : ℚ)
  let ys := arr.map fun l => l.duration.getD 0
  let n := arr.length
  let meanX := xs.foldl (· + ·) 0 / (n : ℚ)
  let meanY := ys.foldl (· + ·) 0 / (n : ℚ)
  (xs.zip ys).foldl
    (fun acc p => (acc.1 + (p.1 - meanX) * (p.2 - meanY), acc.2 + (p.1 - meanX) * (p.1 - meanX)))
    (0, 0)

/-- The per-group body of `byTyre.forEach`: `none` for fewer than 12 points
or a non-positive denominator, otherwise the OLS slope clamped by
`Math.max(0.03, Math.min(0.25, slope))`. -/
def groupSlope (arr : List OpenF1Lap) : Option ℚ :=
  if arr.length < 12 then none
  else
    let nd := groupNumDen arr
    if nd.2 ≤ 0 then none
    else some (max (3 / 100) (min (1 / 4) (nd.1 / nd.2)))

/-- `inferDegradationFromLaps` from the source.  The `Record<string, number>`
result is an association list in insertion order of the groups. -/
def inferDegradationFromLaps (laps : List OpenF1Lap) :
    Option (List (String × ℚ)) :=
  let byTyre := tyreGroups laps
  if byTyre.isEmpty then none
  else
    let result := byTyre.filterMap fun p => (groupSlope p.2).map fun s => (p.1, s)
    if result.isEmpty then none else some result

/-- Modelled from the claim's words, for comparison with the source: a lap is
discarded only when it is "missing a compound or a duration"; a lap with a
present but zero duration (or a zero lap number) is kept. -/
def lapSkippedClaim (l : OpenF1Lap) : Bool :=
  lapTyreKey l = "" ∨ l.duration = none

/-- The grouping of `inferDegradationFromLaps` as the claim describes it,
differing from `tyreGroups` only in the discard rule. -/
def tyreGroupsClaim (laps : List OpenF1Lap) : List (String × List OpenF1Lap) :=
  laps.foldl (fun gs l => if lapSkippedClaim l then gs else addToGroups gs (lapTyreKey l) l) []

/-- `inferDegradationFromLaps` as the claim describes it: the source's
pipeline over the claim's grouping. -/
def inferDegradationClaim (laps : List OpenF1Lap) :
    Option (List (String × ℚ)) :=
  let byTyre := tyreGroupsClaim laps
  if byTyre.isEmpty then none
  else
    let result := byTyre.filterMap fun p => (groupSlope p.2).map fun s => (p.1, s)
    if result.isEmpty then none else some result

/-- Truncation toward zero, the rounding of JavaScript's `%`. -/
def ratTrunc (q : ℚ) : Int := if 0 ≤ q then ⌊q⌋ else ⌈q⌉

/-- JavaScript's remainder `a % b`: `a - b * trunc(a / b)`. -/
def jsRem (a b : ℚ) : ℚ := a - b * (ratTrunc (a / b) : ℚ)

/-- `String(x).padStart(width, '0')`. -/
def padStartZeros (s : String) (width : Nat) : String :=
  String.mk (List.replicate (width - s.length) '0') ++ s

/-- `formatSeconds` from the source: `Math.floor` of minutes, of the
remainder modulo 60, and of the fractional part times 1000, with seconds
padded to 2 digits and milliseconds to 3. -/
def formatSeconds (totalSeconds : ℚ) : String :=
  let minutes : Int := ⌊totalSeconds / 60⌋
  let seconds : Int := ⌊jsRem totalSeconds 60⌋
  let millis : Int := ⌊(totalSeconds - (⌊totalSeconds⌋ : ℚ)) * 1000⌋
  let mm := toString minutes
  let ss := padStartZeros (toString seconds) 2
  let mmm := padStartZeros (toString millis) 3
  mm ++ ":" ++ ss ++ "." ++ mmm

/-- `values.reduce((a, t) => a + f(t), 0) / values.length` over the catalog,
used by `onPredict` in `App.tsx` for the fallback averages. -/
def avgOf (tracks : TrackDictionary) (f : StaticTrackData → ℚ) : ℚ :=
  tracks.foldl (fun a p => a + f p.2) 0 / (tracks.length : ℚ)

/-- The name under which a compound is looked up in the calibrated
degradation record. -/
def compoundName : TyreCompound → String
  | .SOFT => "SOFT"
  | .MEDIUM => "MEDIUM"
  | .HARD => "HARD"

/-- The largest lap number, `Math.max(...laps.map(l => l.lap_number || 0))`
(the list is non-empty at the call site). -/
def maxLapNumber (ns : List Int) : Int :=
  match ns with
  | [] => 0
  | x :: xs => xs.foldl max x

/-- The dynamic track entry synthesized by `onPredict` in `App.tsx` when the
static catalog has no entry for the requested track: durations are filtered
to the (30, 200) band and sorted; `p20` is the 20th-percentile entry with a
hardcoded default of 90 for an empty list; the profile fields fall back to
catalog-wide averages through `||` (falsy) and `??` (nullish) chains. -/
def buildDynamicEntry (tracks : TrackDictionary) (laps : List OpenF1Lap)
    (pit : Option ℚ) (deg : Option (List (String × ℚ))) : StaticTrackData :=
  let durations := (laps.filterMap OpenF1Lap.duration).filter fun x =>
    decide (30 < x ∧ x < 200)
  let sorted := insertionSortAsc durations
  let p20 : ℚ :=
    if sorted.length ≠ 0 then sorted.getD (⌊(sorted.length : ℚ) * (2 / 10)⌋.toNat) 0
    else 90
  let lapsCount : Int :=
    if laps.length ≠ 0 then maxLapNumber (laps.map OpenF1Lap.lap_number) else 50
  let avgPit := avgOf tracks fun t => t.pit_loss_seconds
  let avgBase := avgOf tracks fun t => t.base_lap_time_seconds
  let avgDeg := fun c => avgOf tracks fun t => t.degradation_per_lap_seconds c
  { laps := lapsCount
    pit_loss_seconds := if pit.getD 0 = 0 then avgPit else pit.getD 0
    base_lap_time_seconds := if p20 = 0 then avgBase else p20
    degradation_per_lap_seconds := fun c =>
      match deg with
      | none => avgDeg c
      | some d => (d.lookup (compoundName c)).getD (avgDeg c) }

end RaceMind

namespace RaceMind

/-! ### Helper lemmas: compound assigner -/

lemma mem_tyresOrder (c : TyreCompound) : c ∈ tyresOrder := by
  cases c <;> simp [tyresOrder]

lemma mem_allCompoundSeqs (n : Nat) (l : List TyreCompound) :
    l ∈ allCompoundSeqs n ↔ l.length = n := by
  induction n generalizing l with
  | zero =>
    simp [allCompoundSeqs, List.length_eq_zero]
  | succ n ih =>
    cases l with
    | nil =>
      simp [allCompoundSeqs]
    | cons c s =>
      simp only [allCompoundSeqs, List.mem_flatMap, List.mem_map, List.length_cons]
      constructor
      · rintro ⟨c2, _, s2, hs2, heq⟩
        have h2 : s2 = s := by injection heq
        have hlen := (ih s2).1 hs2
        rw [← h2]
        omega
      · intro hs
        refine ⟨c, mem_tyresOrder c, s, (ih s).2 ?_, rfl⟩
        omega

lemma nodup_allCompoundSeqs (n : Nat) : (allCompoundSeqs n).Nodup := by
  induction n with
  | zero => simp [allCompoundSeqs]
  | succ n ih =>
    rw [allCompoundSeqs, List.nodup_flatMap]
    refine ⟨fun c _ => ih.map fun s t h => by injection h, ?_⟩
    have : ∀ c1 c2 : TyreCompound, c1 ≠ c2 →
        Function.onFun List.Disjoint (fun c => (allCompoundSeqs n).map fun s => c :: s) c1 c2 := by
      intro c1 c2 hne l h1 h2
      obtain ⟨s1, _, rfl⟩ := List.mem_map.1 h1
      obtain ⟨s2, _, heq⟩ := List.mem_map.1 h2
      exact hne (by injection heq.symm)
    have hnd : tyresOrder.Nodup := by decide
    exact hnd.pairwise_of_forall_ne fun c1 _ c2 _ h => this c1 c2 h

lemma mem_assignCompounds (k : Nat) (l : List TyreCompound) :
    l ∈ assignCompounds k ↔ l.length = k ∧ 2 ≤ distinctCount l := by
  simp [assignCompounds, List.mem_filter, mem_allCompoundSeqs]

lemma nodup_assignCompounds (k : Nat) : (assignCompounds k).Nodup :=
  (nodup_allCompoundSeqs k).filter _

lemma assignCompounds_one : assignCompounds 1 = [] := by decide

lemma assignCompounds_four_ne_nil : assignCompounds 4 ≠ [] := by
  intro h
  have : ([.SOFT, .SOFT, .SOFT, .MEDIUM] : List TyreCompound) ∈ assignCompounds 4 :=
    (mem_assignCompounds 4 _).2 ⟨rfl, by decide⟩
  simp [h] at this

/-! ### Helper lemmas: candidate deduplication -/

lemma dedupKeepFirst_subset {α : Type _} [DecidableEq α] (l : List α) :
    ∀ x ∈ dedupKeepFirst l, x ∈ l := by
  suffices h : ∀ (l : List α) (acc : List α) (x : α),
      x ∈ l.foldl (fun uniq seq => if seq ∈ uniq then uniq else uniq ++ [seq]) acc →
      x ∈ acc ∨ x ∈ l by
    intro x hx
    rcases h l [] x hx with h0 | h1
    · simp at h0
    · exact h1
  intro l
  induction l with
  | nil => intro acc x hx; exact Or.inl hx
  | cons a t ih =>
    intro acc x hx
    rcases ih _ x hx with h0 | h1
    · by_cases ha : a ∈ acc
      · simp only [ha, if_true] at h0
        exact Or.inl h0
      · simp only [ha, if_false, List.mem_append, List.mem_singleton] at h0
        rcases h0 with h2 | h2
        · exact Or.inl h2
        · simp [h2]
    · simp [h1]

lemma mem_foldl_dedup_of_mem_acc {α : Type _} [DecidableEq α] (l acc : List α) (x : α)
    (hx : x ∈ acc) :
    x ∈ l.foldl (fun uniq seq => if seq ∈ uniq then uniq else uniq ++ [seq]) acc := by
  induction l generalizing acc with
  | nil => exact hx
  | cons a t ih =>
    refine ih _ ?_
    by_cases ha : a ∈ acc
    · simpa [ha] using hx
    · simp [ha, List.mem_append, hx]

lemma mem_dedupKeepFirst {α : Type _} [DecidableEq α] (l : List α) (x : α) (hx : x ∈ l) :
    x ∈ dedupKeepFirst l := by
  suffices h : ∀ (l acc : List α) (x : α), x ∈ l →
      x ∈ l.foldl (fun uniq seq => if seq ∈ uniq then uniq else uniq ++ [seq]) acc from
    h l [] x hx
  clear hx x l
  intro l
  induction l with
  | nil => intro acc x hx; simp at hx
  | cons a t ih =>
    intro acc x hx
    rw [List.foldl_cons]
    rcases List.mem_cons.1 hx with rfl | hxt
    · apply mem_foldl_dedup_of_mem_acc
      by_cases ha : x ∈ acc
      · simp [ha]
      · simp [ha]
    · exact ih _ x hxt

lemma nodup_dedupKeepFirst {α : Type _} [DecidableEq α] (l : List α) :
    (dedupKeepFirst l).Nodup := by
  suffices h : ∀ (l acc : List α), acc.Nodup →
      (l.foldl (fun uniq seq => if seq ∈ uniq then uniq else uniq ++ [seq]) acc).Nodup from
    h l [] List.nodup_nil
  intro l
  induction l with
  | nil => intro acc h; exact h
  | cons a t ih =>
    intro acc h
    refine ih _ ?_
    by_cases ha : a ∈ acc
    · simpa [ha]
    · simpa [ha] using List.Nodup.append h (List.nodup_singleton a) (by simpa using ha)

/-! ### Helper lemmas: candidate generator -/

lemma fdiv_nonneg_eq_ediv (L d : Int) (hL : 0 ≤ L) (hd : 0 ≤ d) :
    L.fdiv d = L / d := by
  rw [Int.fdiv_eq_tdiv hL hd, Int.tdiv_eq_ediv hL hd]

lemma mem_twoStintCandidates (L : Int) (s : List Int)
    (hs : s ∈ twoStintCandidates L) :
    ∃ a b : Int, s = [a, b] ∧ 1 ≤ a ∧ 1 ≤ b ∧ a + b = L := by
  unfold twoStintCandidates at hs
  obtain ⟨delta, _, hd⟩ := List.mem_filterMap.1 hs
  simp only at hd
  split at hd
  · rename_i hb
    obtain rfl : [max 1 (L.fdiv 2 + delta), L - max 1 (L.fdiv 2 + delta)] = s := by
      injection hd
    refine ⟨_, _, rfl, le_max_left _ _, by omega, by ring⟩
  · exact absurd hd (by simp)

lemma mem_threeStintCandidates (L : Int) (s : List Int)
    (hs : s ∈ threeStintCandidates L) :
    ∃ a b c : Int, s = [a, b, c] ∧ 1 ≤ a ∧ 1 ≤ b ∧ 1 ≤ c ∧ a + b + c = L := by
  unfold threeStintCandidates at hs
  obtain ⟨d1, _, hd1⟩ := List.mem_flatMap.1 hs
  obtain ⟨d2, _, hd⟩ := List.mem_filterMap.1 hd1
  simp only at hd
  split at hd
  · rename_i hc
    obtain rfl : [max 1 (L.fdiv 3 + d1), max 1 (L.fdiv 3 + d2),
        L - max 1 (L.fdiv 3 + d1) - max 1 (L.fdiv 3 + d2)] = s := by
      injection hd
    exact ⟨_, _, _, rfl, le_max_left _ _, le_max_left _ _, by omega, by ring⟩
  · exact absurd hd (by simp)

lemma fourStintCandidate_spec (L : Int) (hL : 4 ≤ L) :
    (∀ x ∈ fourStintCandidate L, 1 ≤ x) ∧ (fourStintCandidate L).sum = L := by
  have h0 : (0 : Int) ≤ L := by omega
  have hq : L.fdiv 4 = L / 4 := fdiv_nonneg_eq_ediv L 4 h0 (by norm_num)
  have h1 : 1 ≤ L / 4 := by omega
  have hmax : quarterLen L = L / 4 := by
    rw [quarterLen, hq, max_eq_right h1]
  constructor
  · intro x hx
    simp only [fourStintCandidate, List.mem_cons, List.not_mem_nil, or_false] at hx
    rcases hx with rfl | rfl | rfl | rfl <;> rw [hmax] <;> omega
  · simp only [fourStintCandidate, List.sum_cons, List.sum_nil]
    ring

lemma generateCandidateStints_mem_cases (L : Int) (s : List Int)
    (hs : s ∈ generateCandidateStints L) :
    s ∈ twoStintCandidates L ∨ s ∈ threeStintCandidates L ∨
      s = fourStintCandidate L ∨ s = [L] := by
  have h := dedupKeepFirst_subset _ s hs
  simp only [List.mem_append, List.mem_singleton] at h
  tauto

lemma fourStintCandidate_mem (L : Int) :
    fourStintCandidate L ∈ generateCandidateStints L := by
  apply mem_dedupKeepFirst
  simp

/-! ### Helper lemmas: search driver -/

lemma scorePlan_stints_laps (track : StaticTrackData) (part : List Int)
    (cs : List TyreCompound) (hlen : cs.length = part.length) :
    ((scorePlan track part cs).stints.map StrategyStint.laps = part) ∧
      ((scorePlan track part cs).stints.map StrategyStint.compound = cs) := by
  unfold scorePlan
  simp only [List.map_map]
  constructor
  · have : (StrategyStint.laps ∘ fun p : TyreCompound × Int => StrategyStint.mk p.1 p.2)
        = Prod.snd := rfl
    rw [this]
    exact List.map_snd_zip _ _ (by omega)
  · have : (StrategyStint.compound ∘ fun p : TyreCompound × Int => StrategyStint.mk p.1 p.2)
        = Prod.fst := rfl
    rw [this]
    exact List.map_fst_zip _ _ (by omega)

lemma betterPlan_cases (best : Option StrategyPlan) (plan : StrategyPlan) :
    betterPlan best plan = plan ∨ ∃ b0, best = some b0 ∧ betterPlan best plan = b0 := by
  cases best with
  | none => exact Or.inl rfl
  | some b0 =>
    by_cases h : plan.totalTimeSeconds < b0.totalTimeSeconds
    · exact Or.inl (by simp [betterPlan, h])
    · exact Or.inr ⟨b0, rfl, by simp [betterPlan, h]⟩

lemma runAssignments_shape (track : StaticTrackData) (part : List Int) :
    ∀ (as : List (List TyreCompound)) (best : Option StrategyPlan) (b : StrategyPlan),
      runAssignments track part as best = some b →
      best = some b ∨ ∃ cs ∈ as, b = scorePlan track part cs := by
  intro as
  induction as with
  | nil =>
    intro best b h
    exact Or.inl h
  | cons cs rest ih =>
    intro best b h
    have hbp := betterPlan_cases best (scorePlan track part cs)
    simp only [runAssignments] at h
    split at h
    · have hb : betterPlan best (scorePlan track part cs) = b := by injection h
      rcases hbp with h1 | ⟨b0, hb0, h1⟩
      · exact Or.inr ⟨cs, List.mem_cons_self cs rest, by rw [← h1, hb]⟩
      · exact Or.inl (by rw [hb0, h1.symm.trans hb])
    · rcases ih _ b h with h2 | ⟨cs2, hcs2, h2⟩
      · have hb : betterPlan best (scorePlan track part cs) = b := by injection h2
        rcases hbp with h1 | ⟨b0, hb0, h1⟩
        · exact Or.inr ⟨cs, List.mem_cons_self cs rest, by rw [← h1, hb]⟩
        · exact Or.inl (by rw [hb0, h1.symm.trans hb])
      · exact Or.inr ⟨cs2, List.mem_cons_of_mem cs hcs2, h2⟩

lemma runAssignments_some_of_some (track : StaticTrackData) (part : List Int) :
    ∀ (as : List (List TyreCompound)) (b0 : StrategyPlan),
      ∃ b, runAssignments track part as (some b0) = some b := by
  intro as
  induction as with
  | nil => intro b0; exact ⟨b0, rfl⟩
  | cons cs rest ih =>
    intro b0
    simp only [runAssignments]
    split
    · exact ⟨_, rfl⟩
    · exact ih _

lemma runAssignments_some_of_ne_nil (track : StaticTrackData) (part : List Int)
    (as : List (List TyreCompound)) (h : as ≠ []) (best : Option StrategyPlan) :
    ∃ b, runAssignments track part as best = some b := by
  cases as with
  | nil => exact absurd rfl h
  | cons cs rest =>
    simp only [runAssignments]
    split
    · exact ⟨_, rfl⟩
    · exact runAssignments_some_of_some track part rest _

lemma searchBest_fold_shape (track : StaticTrackData) :
    ∀ (parts : List (List Int)) (acc : Option StrategyPlan) (b : StrategyPlan),
      parts.foldl
        (fun best lapsPerStint =>
          runAssignments track lapsPerStint (assignCompounds lapsPerStint.length) best)
        acc = some b →
      acc = some b ∨
        ∃ part ∈ parts, ∃ cs ∈ assignCompounds part.length, b = scorePlan track part cs := by
  intro parts
  induction parts with
  | nil =>
    intro acc b h
    exact Or.inl h
  | cons p rest ih =>
    intro acc b h
    rw [List.foldl_cons] at h
    rcases ih _ b h with h1 | ⟨part, hpart, cs, hcs, h2⟩
    · rcases runAssignments_shape track p _ acc b h1 with h2 | ⟨cs, hcs, h2⟩
      · exact Or.inl h2
      · exact Or.inr ⟨p, List.mem_cons_self p rest, cs, hcs, h2⟩
    · exact Or.inr ⟨part, List.mem_cons_of_mem p hpart, cs, hcs, h2⟩

lemma searchBest_shape (track : StaticTrackData) (parts : List (List Int))
    (b : StrategyPlan) (h : searchBest track parts = some b) :
    ∃ part ∈ parts, ∃ cs ∈ assignCompounds part.length, b = scorePlan track part cs := by
  rcases searchBest_fold_shape track parts none b h with h1 | h1
  · exact absurd h1 (by simp)
  · exact h1

lemma searchBest_fold_isSome (track : StaticTrackData) :
    ∀ (parts : List (List Int)) (acc : Option StrategyPlan),
      ((∃ p ∈ parts, assignCompounds p.length ≠ []) ∨ ∃ b0, acc = some b0) →
      ∃ b, parts.foldl
        (fun best lapsPerStint =>
          runAssignments track lapsPerStint (assignCompounds lapsPerStint.length) best)
        acc = some b := by
  intro parts
  induction parts with
  | nil =>
    intro acc h
    rcases h with ⟨p, hp, _⟩ | ⟨b0, hb0⟩
    · exact absurd hp (by simp)
    · exact ⟨b0, hb0⟩
  | cons p rest ih =>
    intro acc h
    rw [List.foldl_cons]
    rcases h with ⟨p2, hp2, hne⟩ | ⟨b0, hb0⟩
    · rcases List.mem_cons.1 hp2 with rfl | hp3
      · obtain ⟨b, hb⟩ := runAssignments_some_of_ne_nil track p2 _ hne acc
        rw [hb]
        exact ih _ (Or.inr ⟨b, rfl⟩)
      · cases hacc : runAssignments track p (assignCompounds p.length) acc with
        | none => exact ih _ (Or.inl ⟨p2, hp3, hne⟩)
        | some b => exact ih _ (Or.inr ⟨b, rfl⟩)
    · subst hb0
      obtain ⟨b, hb⟩ := runAssignments_some_of_some track p _ b0
      rw [hb]
      exact ih _ (Or.inr ⟨b, rfl⟩)

lemma searchBest_isSome (track : StaticTrackData) :
    ∃ b, searchBest track (generateCandidateStints track.laps) = some b := by
  apply searchBest_fold_isSome
  refine Or.inl ⟨fourStintCandidate track.laps, fourStintCandidate_mem track.laps, ?_⟩
  exact assignCompounds_four_ne_nil

lemma predictBestStrategy_eq_none (input : StrategyEngineInput)
    (h : input.tracksData = none) :
    predictBestStrategy input = Except.error StrategyError.missingTracksData := by
  unfold predictBestStrategy
  rw [h]

lemma predictBestStrategy_eq_unknown (input : StrategyEngineInput)
    (td : TrackDictionary) (h1 : input.tracksData = some td)
    (h2 : td.lookup input.trackName = none) :
    predictBestStrategy input
      = Except.error (StrategyError.unknownTrack input.trackName) := by
  unfold predictBestStrategy
  rw [h1]
  show (match td.lookup input.trackName with
    | none => Except.error (StrategyError.unknownTrack input.trackName)
    | some track =>
      match searchBest track (generateCandidateStints track.laps) with
      | none => Except.error StrategyError.searchFailed
      | some best => Except.ok best) = _
  rw [h2]

lemma predictBestStrategy_eq_found (input : StrategyEngineInput)
    (td : TrackDictionary) (track : StaticTrackData)
    (h1 : input.tracksData = some td)
    (h2 : td.lookup input.trackName = some track) :
    predictBestStrategy input
      = match searchBest track (generateCandidateStints track.laps) with
        | none => Except.error StrategyError.searchFailed
        | some best => Except.ok best := by
  unfold predictBestStrategy
  rw [h1]
  show (match td.lookup input.trackName with
    | none => Except.error (StrategyError.unknownTrack input.trackName)
    | some track =>
      match searchBest track (generateCandidateStints track.laps) with
      | none => Except.error StrategyError.searchFailed
      | some best => Except.ok best) = _
  rw [h2]

/-- The plan invariants asserted by the specification: stint lap counts sum
to the track's race distance, the stint count is between 2 and 4, at least
two distinct compounds are used, and every stint runs at least one lap. -/
def PlanWithinSpec (L : Int) (p : StrategyPlan) : Prop :=
  (p.stints.map StrategyStint.laps).sum = L ∧
  2 ≤ p.stints.length ∧ p.stints.length ≤ 4 ∧
  2 ≤ distinctCount (p.stints.map StrategyStint.compound) ∧
  ∀ st ∈ p.stints, 1 ≤ st.laps

lemma scorePlan_within (track : StaticTrackData) (L : Int) (part : List Int)
    (cs : List TyreCompound) (hL : 4 ≤ L)
    (hpart : part ∈ generateCandidateStints L)
    (hcs : cs ∈ assignCompounds part.length) :
    PlanWithinSpec L (scorePlan track part cs) := by
  obtain ⟨hlen, hdist⟩ := (mem_assignCompounds _ _).1 hcs
  have hdle : distinctCount cs ≤ cs.length := (List.dedup_sublist cs).length_le
  have hplen2 : 2 ≤ part.length := by omega
  have hpart_facts : (∀ x ∈ part, 1 ≤ x) ∧ part.sum = L ∧ part.length ≤ 4 := by
    rcases generateCandidateStints_mem_cases L part hpart with h | h | h | h
    · obtain ⟨a, b, rfl, ha, hb, hab⟩ := mem_twoStintCandidates L part h
      refine ⟨?_, by simp only [List.sum_cons, List.sum_nil]; omega, by simp⟩
      intro x hx
      simp only [List.mem_cons, List.not_mem_nil, or_false] at hx
      rcases hx with rfl | rfl <;> omega
    · obtain ⟨a, b, c, rfl, ha, hb, hc, habc⟩ := mem_threeStintCandidates L part h
      refine ⟨?_, by simp only [List.sum_cons, List.sum_nil]; omega, by simp⟩
      intro x hx
      simp only [List.mem_cons, List.not_mem_nil, or_false] at hx
      rcases hx with rfl | rfl | rfl <;> omega
    · subst h
      exact ⟨(fourStintCandidate_spec L hL).1, (fourStintCandidate_spec L hL).2,
        by simp [fourStintCandidate]⟩
    · subst h
      simp at hplen2
  obtain ⟨hmapl, hmapc⟩ := scorePlan_stints_laps track part cs hlen
  have hslen : (scorePlan track part cs).stints.length = part.length := by
    have h := congrArg List.length hmapl
    rwa [List.length_map] at h
  refine ⟨?_, ?_, ?_, ?_, ?_⟩
  · rw [hmapl]
    exact hpart_facts.2.1
  · omega
  · omega
  · rw [hmapc]
    exact hdist
  · intro st hst
    have hmem : st.laps ∈ part := by
      rw [← hmapl]
      exact List.mem_map_of_mem _ hst
    exact hpart_facts.1 _ hmem

/-- C1 (amended: the race must be at least 4 laps long — for `totalLaps ≤ 3`
the unguarded quarter-split candidate can put a non-positive lap count into
the winning plan): for a profile table containing the requested track with
`totalLaps ≥ 4`, positive pit loss, base lap time and degradation entries,
`predictBestStrategy` returns a plan whose stint lap counts sum to
`totalLaps`, with 2–4 stints, at least 2 distinct compounds, and every stint
at least 1 lap. -/
theorem predictBestStrategy_plan_invariants
    (input : StrategyEngineInput) (td : TrackDictionary) (track : StaticTrackData)
    (htd : input.tracksData = some td)
    (hlk : td.lookup input.trackName = some track)
    (hL : 4 ≤ track.laps)
    (hpit : 0 < track.pit_loss_seconds)
    (hbase : 0 < track.base_lap_time_seconds)
    (hdeg : ∀ c, 0 < track.degradation_per_lap_seconds c) :
    ∃ plan, predictBestStrategy input = Except.ok plan ∧
      PlanWithinSpec track.laps plan := by
  obtain ⟨b, hb⟩ := searchBest_isSome track
  have hpred : predictBestStrategy input = Except.ok b := by
    rw [predictBestStrategy_eq_found input td track htd hlk, hb]
  obtain ⟨part, hpart, cs, hcs, rfl⟩ := searchBest_shape track _ b hb
  exact ⟨_, hpred, scorePlan_within track track.laps part cs hL hpart hcs⟩

/-- A 1-lap track profile with positive pit loss, base lap time and all
three degradation entries. -/
def smallTrack : StaticTrackData :=
  { laps := 1, pit_loss_seconds := 20, base_lap_time_seconds := 100,
    degradation_per_lap_seconds := fun _ => 1 / 10 }

/-- An engine input whose table contains the requested track. -/
def smallInput : StrategyEngineInput :=
  { trackName := "Monaco", raceYear := 2024,
    tracksData := some [("Monaco", smallTrack)] }

/-- C1 counterexample: at `totalLaps = 1` (a positive integer, with all the
claim's positivity hypotheses satisfied) the engine succeeds, but the plan it
returns contains a stint with a lap count below 1 — the only partition with
any legal compound assignment is the unguarded quarter split `[1, 1, 1, -2]`. -/
theorem predictBestStrategy_small_track_violation :
    ∃ p, predictBestStrategy smallInput = Except.ok p ∧
      ¬ ∀ st ∈ p.stints, 1 ≤ st.laps := by
  obtain ⟨b, hb⟩ := searchBest_isSome smallTrack
  have hpred : predictBestStrategy smallInput = Except.ok b := by
    have hlk : (([("Monaco", smallTrack)] : TrackDictionary)).lookup
        smallInput.trackName = some smallTrack := by rfl
    rw [predictBestStrategy_eq_found smallInput _ smallTrack rfl hlk, hb]
  obtain ⟨part, hpart, cs, hcs, rfl⟩ := searchBest_shape smallTrack _ b hb
  have hparts : generateCandidateStints smallTrack.laps = [[1, 1, 1, -2], [1]] := by decide
  rw [hparts] at hpart
  simp only [List.mem_cons, List.not_mem_nil, or_false] at hpart
  rcases hpart with rfl | rfl
  · obtain ⟨hlen, _⟩ := (mem_assignCompounds _ _).1 hcs
    have hmapl := (scorePlan_stints_laps smallTrack [1, 1, 1, -2] cs (by simpa using hlen)).1
    refine ⟨_, hpred, fun hall => ?_⟩
    have hm : (-2 : Int) ∈ (scorePlan smallTrack [1, 1, 1, -2] cs).stints.map
        StrategyStint.laps := by
      rw [hmapl]
      simp
    obtain ⟨st, hst, hst2⟩ := List.mem_map.1 hm
    have := hall st hst
    omega
  · rw [show ([1] : List Int).length = 1 from rfl, assignCompounds_one] at hcs
    simp at hcs

/-- C3 (amended: for `totalLaps ≥ 4`; at `totalLaps ≤ 3` the quarter-split
candidate contains a non-positive entry): every candidate is an ordered
sequence of 1–4 positive integers summing to `totalLaps`, and no two
candidates have the same literal sequence. -/
theorem generateCandidateStints_spec (L : Int) (hL : 4 ≤ L) :
    (∀ s ∈ generateCandidateStints L,
        1 ≤ s.length ∧ s.length ≤ 4 ∧ (∀ x ∈ s, 1 ≤ x) ∧ s.sum = L) ∧
    (generateCandidateStints L).Nodup := by
  refine ⟨fun s hs => ?_, nodup_dedupKeepFirst _⟩
  rcases generateCandidateStints_mem_cases L s hs with h | h | h | h
  · obtain ⟨a, b, rfl, ha, hb, hab⟩ := mem_twoStintCandidates L s h
    refine ⟨by simp, by simp, ?_, by simp only [List.sum_cons, List.sum_nil]; omega⟩
    intro x hx
    simp only [List.mem_cons, List.not_mem_nil, or_false] at hx
    rcases hx with rfl | rfl <;> omega
  · obtain ⟨a, b, c, rfl, ha, hb, hc, habc⟩ := mem_threeStintCandidates L s h
    refine ⟨by simp, by simp, ?_, by simp only [List.sum_cons, List.sum_nil]; omega⟩
    intro x hx
    simp only [List.mem_cons, List.not_mem_nil, or_false] at hx
    rcases hx with rfl | rfl | rfl <;> omega
  · subst h
    exact ⟨by simp [fourStintCandidate], by simp [fourStintCandidate],
      (fourStintCandidate_spec L hL).1, (fourStintCandidate_spec L hL).2⟩
  · subst h
    refine ⟨by simp, by simp, ?_, by simp⟩
    intro x hx
    simp only [List.mem_cons, List.not_mem_nil, or_false] at hx
    subst hx
    omega

/-- C3 counterexample: at the positive race length `totalLaps = 3` the
candidate list contains `[1, 1, 1, 0]`, whose last entry is not a positive
integer (the quarter-split candidate is pushed without a positivity check). -/
theorem generateCandidateStints_cex :
    ([1, 1, 1, 0] : List Int) ∈ generateCandidateStints 3 ∧
      ¬ ∀ x ∈ ([1, 1, 1, 0] : List Int), 1 ≤ x := by decide

/-- C1 witness. -/
theorem predictBestStrategy_plan_invariants_witness :
    ∃ plan, predictBestStrategy
        { trackName := "Monaco", raceYear := 2024,
          tracksData := some [("Monaco",
            { laps := 57, pit_loss_seconds := 20, base_lap_time_seconds := 92,
              degradation_per_lap_seconds := fun _ => 1 / 10 })] }
        = Except.ok plan ∧ PlanWithinSpec 57 plan :=
  predictBestStrategy_plan_invariants _ _
    { laps := 57, pit_loss_seconds := 20, base_lap_time_seconds := 92,
      degradation_per_lap_seconds := fun _ => 1 / 10 }
    rfl rfl (by norm_num) (by norm_num) (by norm_num) (fun c => by norm_num)

/-- C3 witness. -/
theorem generateCandidateStints_spec_witness :
    (∀ s ∈ generateCandidateStints 57,
        1 ≤ s.length ∧ s.length ≤ 4 ∧ (∀ x ∈ s, 1 ≤ x) ∧ s.sum = 57) ∧
    (generateCandidateStints 57).Nodup :=
  generateCandidateStints_spec 57 (by norm_num)

/-- C7: for every stint count `k ≥ 1`, `assignCompounds k` is exactly the
collection of length-`k` compound sequences with at least two distinct
compounds (each listed once); in particular `assignCompounds 1 = []`. -/
theorem assignCompounds_spec (k : Nat) (hk : 1 ≤ k) :
    (∀ l, l ∈ assignCompounds k ↔ l.length = k ∧ 2 ≤ distinctCount l) ∧
    (assignCompounds k).Nodup ∧ assignCompounds 1 = [] :=
  ⟨fun l => mem_assignCompounds k l, nodup_assignCompounds k, assignCompounds_one⟩

/-- C7 witness. -/
theorem assignCompounds_spec_witness : assignCompounds 1 = [] :=
  (assignCompounds_spec 1 le_rfl).2.2

/-- C8: when the profile table is present and contains the requested track
(with a positive integral race length) the search always records a plan, so
the `"Failed to compute strategy"` branch is unreachable; the only errors are
the missing-table error and the unknown-track error. -/
theorem predictBestStrategy_error_taxonomy :
    (∀ input : StrategyEngineInput, input.tracksData = none →
        predictBestStrategy input = Except.error StrategyError.missingTracksData) ∧
    (∀ (input : StrategyEngineInput) (td : TrackDictionary),
        input.tracksData = some td → td.lookup input.trackName = none →
        predictBestStrategy input
          = Except.error (StrategyError.unknownTrack input.trackName)) ∧
    (∀ (input : StrategyEngineInput) (td : TrackDictionary) (track : StaticTrackData),
        input.tracksData = some td → td.lookup input.trackName = some track →
        1 ≤ track.laps →
        ∃ plan, predictBestStrategy input = Except.ok plan) := by
  refine ⟨?_, ?_, ?_⟩
  · intro input h
    exact predictBestStrategy_eq_none input h
  · intro input td h1 h2
    exact predictBestStrategy_eq_unknown input td h1 h2
  · intro input td track h1 h2 _
    obtain ⟨b, hb⟩ := searchBest_isSome track
    refine ⟨b, ?_⟩
    rw [predictBestStrategy_eq_found input td track h1 h2, hb]

/-- C8 witness. -/
theorem predictBestStrategy_error_taxonomy_witness :
    predictBestStrategy { trackName := "Monza", raceYear := 2024 }
      = Except.error StrategyError.missingTracksData :=
  predictBestStrategy_error_taxonomy.1 { trackName := "Monza", raceYear := 2024 } rfl

/-- C10: the engine result depends only on `trackName` and `tracksData`; any
two inputs agreeing on those two fields produce identical plans, whatever
their `raceYear`, `driverName`, `rainProbabilityPct` and `mode`. -/
theorem predictBestStrategy_deterministic
    (i1 i2 : StrategyEngineInput) (hname : i1.trackName = i2.trackName)
    (hdata : i1.tracksData = i2.tracksData) :
    predictBestStrategy i1 = predictBestStrategy i2 := by
  unfold predictBestStrategy
  rw [hname, hdata]

/-- C10 witness: two inputs differing in year, driver, rain probability and
mode give the same result. -/
theorem predictBestStrategy_deterministic_witness :
    predictBestStrategy
        { trackName := "Monaco", raceYear := 2023, driverName := some "Leclerc",
          rainProbabilityPct := some 40, mode := some Mode.A,
          tracksData := some [("Monaco", smallTrack)] }
      = predictBestStrategy
        { trackName := "Monaco", raceYear := 2024, driverName := none,
          rainProbabilityPct := some 0, mode := some Mode.C,
          tracksData := some [("Monaco", smallTrack)] } :=
  predictBestStrategy_deterministic _ _ rfl rfl

/-- C4: the stint cost with the default fuel penalty is exactly
`n·baseLap + degPerLap·n(n+1)/2 + 0.015·n(n−1)/2`. -/
theorem computeStintTimeSeconds_closed_form (baseLap degPerLap : ℚ) (n : Int) :
    computeStintTimeSeconds baseLap degPerLap n =
      (n : ℚ) * baseLap + degPerLap * ((n : ℚ) * ((n : ℚ) + 1)) / 2
        + (15 / 1000 : ℚ) * ((n : ℚ) * ((n : ℚ) - 1)) / 2 := by
  unfold computeStintTimeSeconds
  ring

/-! ### Pit-loss inference (C5) -/

/-- C5: `inferPitLossFromLaps` (a total function — it never throws) returns
no estimate exactly when fewer than 10 lap durations lie strictly between 30
and 200 seconds; otherwise it returns the maximum minus the median of the
sorted in-band durations clamped into `[15, 30]`, so every estimate lies in
`[15, 30]`. -/
theorem inferPitLossFromLaps_spec (laps : List OpenF1Lap) :
    (inferPitLossFromLaps laps = none ↔ (bandDurations laps).length < 10) ∧
    (∀ v, inferPitLossFromLaps laps = some v →
      v = max 15 (min 30
          ((insertionSortAsc (bandDurations laps)).getD
              ((insertionSortAsc (bandDurations laps)).length - 1) 0 -
            (insertionSortAsc (bandDurations laps)).getD
              ((insertionSortAsc (bandDurations laps)).length / 2) 0)) ∧
        15 ≤ v ∧ v ≤ 30) := by
  by_cases hemp : laps.isEmpty
  · have hnil : laps = [] := List.isEmpty_iff.1 hemp
    subst hnil
    refine ⟨?_, ?_⟩
    · simp [inferPitLossFromLaps, bandDurations]
    · intro v hv
      simp [inferPitLossFromLaps] at hv
  · by_cases hlen : (bandDurations laps).length < 10
    · refine ⟨?_, ?_⟩
      · simp [inferPitLossFromLaps, hemp, hlen]
      · intro v hv
        simp [inferPitLossFromLaps, hemp, hlen] at hv
    · have heval : inferPitLossFromLaps laps
        = some (max 15 (min 30
            ((insertionSortAsc (bandDurations laps)).getD
                ((insertionSortAsc (bandDurations laps)).length - 1) 0 -
              (insertionSortAsc (bandDurations laps)).getD
                ((insertionSortAsc (bandDurations laps)).length / 2) 0))) := by
        simp [inferPitLossFromLaps, hemp, hlen]
      refine ⟨by simp [heval, hlen], ?_⟩
      intro v hv
      rw [heval] at hv
      have hv2 := Option.some.inj hv
      refine ⟨hv2.symm, ?_, ?_⟩
      · rw [← hv2]
        exact le_max_left _ _
      · rw [← hv2]
        exact max_le (by norm_num) (min_le_left _ _)

/-- Ten telemetry laps, nine flying laps of 100 s and one in-band outlier of
130 s. -/
def calibLaps : List OpenF1Lap :=
  (List.range 9).map
      (fun i => { lap_number := (i : Int) + 1, driver_number := 1, duration := some 100 })
    ++ [{ lap_number := 10, driver_number := 1, duration := some 130 }]

/-- C5 witness: on `calibLaps` the estimate is `max − median = 30`, inside
`[15, 30]`. -/
theorem inferPitLossFromLaps_spec_witness :
    inferPitLossFromLaps calibLaps = some 30 ∧ 15 ≤ (30 : ℚ) ∧ (30 : ℚ) ≤ 30 := by
  have h : inferPitLossFromLaps calibLaps = some 30 := by with_unfolding_all decide
  exact ⟨h, ((inferPitLossFromLaps_spec calibLaps).2 30 h).2⟩

/-! ### Clock formatting (C9) -/

lemma ratTrunc_of_nonneg (q : ℚ) (h : 0 ≤ q) : ratTrunc q = ⌊q⌋ := if_pos h

/-- C9: for non-negative input, `formatSeconds` renders unbounded floored
minutes, a colon, the floored remainder of seconds padded to two digits, a
dot, and the floored milliseconds padded to three digits — truncation, never
rounding, at every unit boundary — and maps `125.4567` to `"2:05.456"`,
`59.999` to `"0:59.999"` and `3600.0` to `"60:00.000"`. -/
theorem formatSeconds_spec :
    (∀ t : ℚ, 0 ≤ t →
        formatSeconds t =
          toString ⌊t / 60⌋ ++ ":"
            ++ padStartZeros (toString (⌊t⌋ - 60 * ⌊t / 60⌋)) 2 ++ "."
            ++ padStartZeros (toString ⌊(t - (⌊t⌋ : ℚ)) * 1000⌋) 3) ∧
    formatSeconds (1254567 / 10000) = "2:05.456" ∧
    formatSeconds (59999 / 1000) = "0:59.999" ∧
    formatSeconds 3600 = "60:00.000" := by
  refine ⟨?_, ?_, ?_, ?_⟩
  · intro t ht
    have htrunc : ratTrunc (t / 60) = ⌊t / 60⌋ :=
      ratTrunc_of_nonneg _ (div_nonneg ht (by norm_num))
    have hsec : ⌊t - 60 * (⌊t / 60⌋ : ℚ)⌋ = ⌊t⌋ - 60 * ⌊t / 60⌋ := by
      rw [show (60 : ℚ) * (⌊t / 60⌋ : ℚ) = ((60 * ⌊t / 60⌋ : ℤ) : ℚ) by push_cast; ring,
        Int.floor_sub_int]
    unfold formatSeconds jsRem
    rw [htrunc, hsec]
  · with_unfolding_all decide
  · with_unfolding_all decide
  · with_unfolding_all decide

/-- C9 witness. -/
theorem formatSeconds_spec_witness :
    formatSeconds 0 =
      toString ⌊(0 : ℚ) / 60⌋ ++ ":"
        ++ padStartZeros (toString (⌊(0 : ℚ)⌋ - 60 * ⌊(0 : ℚ) / 60⌋)) 2 ++ "."
        ++ padStartZeros (toString ⌊((0 : ℚ) - (⌊(0 : ℚ)⌋ : ℚ)) * 1000⌋) 3 :=
  formatSeconds_spec.1 0 le_rfl

/-! ### Dynamic profile synthesis (C2) -/

/-- A one-entry static catalog whose average base lap time is 100. -/
def catalogOne : TrackDictionary :=
  [("Monza",
    { laps := 53, pit_loss_seconds := 20, base_lap_time_seconds := 100,
      degradation_per_lap_seconds := fun _ => 1 / 10 })]

/-- Two telemetry laps with no duration strictly between 30 and 200 s. -/
def outOfBandLaps : List OpenF1Lap :=
  [{ lap_number := 1, driver_number := 1, duration := some 300 },
   { lap_number := 2, driver_number := 1, duration := some 20 }]

/-- C2 (code bug): when the catalog has no entry for the requested track and
no telemetry duration lies strictly in (30, 200), the synthesized base lap
time is the hardcoded `90` — not the catalog-wide average (here `100`): the
`: 90` default applied when no durations qualify makes the `p20 || avgBase`
fallback to the average unreachable, although `avgBase` is computed exactly
for that purpose. -/
theorem buildDynamicEntry_base_fallback_bug :
    (buildDynamicEntry catalogOne outOfBandLaps none none).base_lap_time_seconds = 90 ∧
    avgOf catalogOne (fun t => t.base_lap_time_seconds) = 100 ∧
    (90 : ℚ) ≠ 100 := by
  refine ⟨?_, ?_, by norm_num⟩
  · with_unfolding_all decide
  · with_unfolding_all decide

/-! ### Degradation inference (C6) -/

lemma groupSlope_eq_of (arr : List OpenF1Lap) (h12 : 12 ≤ arr.length)
    (hden : 0 < (groupNumDen arr).2) :
    groupSlope arr
      = some (max (3 / 100) (min (1 / 4) ((groupNumDen arr).1 / (groupNumDen arr).2))) := by
  simp only [groupSlope]
  rw [if_neg (by omega : ¬ arr.length < 12), if_neg (not_le.2 hden)]

lemma groupSlope_none_of (arr : List OpenF1Lap)
    (h : arr.length < 12 ∨ (groupNumDen arr).2 ≤ 0) :
    groupSlope arr = none := by
  simp only [groupSlope]
  rcases h with h | h
  · rw [if_pos h]
  · by_cases h12 : arr.length < 12
    · rw [if_pos h12]
    · rw [if_neg h12, if_pos h]

lemma map_fst_addToGroups (gs : List (String × List OpenF1Lap)) (t : String)
    (l : OpenF1Lap) :
    (addToGroups gs t l).map Prod.fst
      = if gs.any (fun p => p.1 = t) then gs.map Prod.fst
        else gs.map Prod.fst ++ [t] := by
  unfold addToGroups
  split
  · rw [List.map_map]
    apply List.map_congr_left
    intro p _
    by_cases hp : p.1 = t
    · simp [hp]
    · simp [hp]
  · simp

lemma tyreGroups_fold_keys_nodup :
    ∀ (laps : List OpenF1Lap) (gs : List (String × List OpenF1Lap)),
      (gs.map Prod.fst).Nodup →
      ((laps.foldl
          (fun gs l => if lapSkipped l then gs else addToGroups gs (lapTyreKey l) l)
          gs).map Prod.fst).Nodup := by
  intro laps
  induction laps with
  | nil => intro gs h; exact h
  | cons l rest ih =>
    intro gs h
    rw [List.foldl_cons]
    apply ih
    by_cases hs : lapSkipped l
    · simpa [hs]
    · rw [if_neg (by simp [hs]), map_fst_addToGroups]
      split
      · exact h
      · rename_i hany
        refine List.Nodup.append h (List.nodup_singleton _) ?_
        intro x hx hx2
        simp only [List.mem_singleton] at hx2
        subst hx2
        obtain ⟨p, hp, hp2⟩ := List.mem_map.1 hx
        exact hany (List.any_eq_true.2 ⟨p, hp, by simp [hp2]⟩)

lemma tyreGroups_keys_nodup (laps : List OpenF1Lap) :
    ((tyreGroups laps).map Prod.fst).Nodup :=
  tyreGroups_fold_keys_nodup laps [] List.nodup_nil

lemma assoc_mem_unique {β : Type _} :
    ∀ (gs : List (String × β)), (gs.map Prod.fst).Nodup →
      ∀ (t : String) (a b : β), (t, a) ∈ gs → (t, b) ∈ gs → a = b := by
  intro gs
  induction gs with
  | nil =>
    intro _ t a b ha
    simp at ha
  | cons p rest ih =>
    intro h t a b ha hb
    simp only [List.map_cons, List.nodup_cons] at h
    rcases List.mem_cons.1 ha with h1 | h1
    · rcases List.mem_cons.1 hb with h2 | h2
      · have h3 := h1.trans h2.symm
        injection h3
      · exfalso
        apply h.1
        have ht : p.1 = t := by rw [← h1]
        rw [ht]
        simpa using List.mem_map_of_mem Prod.fst h2
    · rcases List.mem_cons.1 hb with h2 | h2
      · exfalso
        apply h.1
        have ht : p.1 = t := by rw [← h2]
        rw [ht]
        simpa using List.mem_map_of_mem Prod.fst h1
      · exact ih h.2 t a b h1 h2

lemma mem_degResult (laps : List OpenF1Lap) (t : String) (s : ℚ) :
    ((t, s) ∈ (tyreGroups laps).filterMap
        fun p => (groupSlope p.2).map fun v => (p.1, v)) ↔
      ∃ arr, (t, arr) ∈ tyreGroups laps ∧ groupSlope arr = some s := by
  rw [List.mem_filterMap]
  constructor
  · rintro ⟨p, hp, hfp⟩
    rw [Option.map_eq_some'] at hfp
    obtain ⟨v, hv, heq⟩ := hfp
    have ht : p.1 = t := by injection heq
    have hs : v = s := by injection heq
    refine ⟨p.2, ?_, by rw [hv, hs]⟩
    have hpe : (t, p.2) = p := by
      rw [← ht]
    rw [hpe]
    exact hp
  · rintro ⟨arr, harr, hslope⟩
    exact ⟨(t, arr), harr, by simp [hslope]⟩

lemma inferDeg_eq_of_some (laps : List OpenF1Lap) (res : List (String × ℚ))
    (h : inferDegradationFromLaps laps = some res) :
    res = (tyreGroups laps).filterMap fun p => (groupSlope p.2).map fun v => (p.1, v) := by
  simp only [inferDegradationFromLaps] at h
  split at h
  · exact absurd h (by simp)
  · split at h
    · exact absurd h (by simp)
    · exact (Option.some.inj h).symm

lemma inferDeg_some_of_mem (laps : List OpenF1Lap) (t : String) (s : ℚ)
    (h : (t, s) ∈ (tyreGroups laps).filterMap
        fun p => (groupSlope p.2).map fun v => (p.1, v)) :
    inferDegradationFromLaps laps
      = some ((tyreGroups laps).filterMap
          fun p => (groupSlope p.2).map fun v => (p.1, v)) := by
  obtain ⟨p, hp, -⟩ := List.mem_filterMap.1 h
  have hne1 : tyreGroups laps ≠ [] := List.ne_nil_of_mem hp
  have hne2 : (tyreGroups laps).filterMap
      (fun p => (groupSlope p.2).map fun v => (p.1, v)) ≠ [] :=
    List.ne_nil_of_mem h
  simp only [inferDegradationFromLaps]
  rw [if_neg (by simpa [List.isEmpty_iff] using hne1),
    if_neg (by simpa [List.isEmpty_iff] using hne2)]

/-- C6 (amended: the grouping also discards laps whose duration or lap
number is zero — JavaScript falsiness — not only laps missing a compound or
duration): laps are grouped by upper-cased compound label; every group with
at least 12 usable points and positive `Σ(x−x̄)²` contributes the clamped
OLS slope of duration against lap number under its label; a group with
fewer than 12 points or non-positive denominator contributes no entry for
its label while other groups still can; and the result is `null` exactly
when no group contributes an entry. -/
theorem inferDegradationFromLaps_spec (laps : List OpenF1Lap) :
    (∀ t arr, (t, arr) ∈ tyreGroups laps → 12 ≤ arr.length →
        0 < (groupNumDen arr).2 →
        ∃ res, inferDegradationFromLaps laps = some res ∧
          (t, max (3 / 100)
              (min (1 / 4) ((groupNumDen arr).1 / (groupNumDen arr).2))) ∈ res) ∧
    (∀ t arr, (t, arr) ∈ tyreGroups laps →
        arr.length < 12 ∨ (groupNumDen arr).2 ≤ 0 →
        ∀ res, inferDegradationFromLaps laps = some res →
          ∀ v : ℚ, (t, v) ∉ res) ∧
    (inferDegradationFromLaps laps = none ↔
      ∀ t arr, (t, arr) ∈ tyreGroups laps → groupSlope arr = none) := by
  refine ⟨?_, ?_, ?_⟩
  · intro t arr hmem h12 hden
    have hs := groupSlope_eq_of arr h12 hden
    have hmem2 := (mem_degResult laps t _).2 ⟨arr, hmem, hs⟩
    exact ⟨_, inferDeg_some_of_mem laps t _ hmem2, hmem2⟩
  · intro t arr hmem hbad res hres v hv
    rw [inferDeg_eq_of_some laps res hres] at hv
    obtain ⟨arr2, harr2, hslope2⟩ := (mem_degResult laps t v).1 hv
    have harr : arr2 = arr :=
      assoc_mem_unique _ (tyreGroups_keys_nodup laps) t arr2 arr harr2 hmem
    rw [harr, groupSlope_none_of arr hbad] at hslope2
    exact Option.noConfusion hslope2
  · constructor
    · intro h t arr hmem
      cases hsl : groupSlope arr with
      | none => rfl
      | some s =>
        have hmem2 := (mem_degResult laps t s).2 ⟨arr, hmem, hsl⟩
        rw [inferDeg_some_of_mem laps t s hmem2] at h
        exact Option.noConfusion h
    · intro h
      simp only [inferDegradationFromLaps]
      split
      · rfl
      · have hres : (tyreGroups laps).filterMap
            (fun p => (groupSlope p.2).map fun v => (p.1, v)) = [] := by
          refine List.filterMap_eq_nil_iff.2 fun p hp => ?_
          rw [h p.1 p.2 (by rw [show (p.1, p.2) = p from rfl]; exact hp)]
          rfl
        rw [hres]
        simp

/-- Twelve usable laps of the SOFT compound with lap numbers 1–12 and
linearly degrading durations (slope 1/10). -/
def goodDegLaps : List OpenF1Lap :=
  (List.range 12).map fun i =>
    { lap_number := (i : Int) + 1, driver_number := 1,
      duration := some (90 + ((i : ℚ) + 1) / 10), tyre := some "soft" }

set_option maxRecDepth 4000 in
/-- C6 witness: on `goodDegLaps` the SOFT group has 12 points and positive
denominator, so the result carries its clamped OLS slope. -/
theorem inferDegradationFromLaps_spec_witness :
    ∃ res, inferDegradationFromLaps goodDegLaps = some res ∧
      ("SOFT", max (3 / 100)
          (min (1 / 4) ((groupNumDen goodDegLaps).1 / (groupNumDen goodDegLaps).2))) ∈ res :=
  (inferDegradationFromLaps_spec goodDegLaps).1 "SOFT" goodDegLaps
    (by with_unfolding_all decide) (by decide) (by with_unfolding_all decide)

/-- Eleven usable SOFT laps plus a twelfth whose duration is present but
zero: the source discards it (JavaScript falsiness), the claim's wording
keeps it. -/
def zeroDurLaps : List OpenF1Lap :=
  (List.range 11).map (fun i =>
    { lap_number := (i : Int) + 1, driver_number := 1,
      duration := some (90 + ((i : ℚ) + 1) / 10), tyre := some "soft" })
  ++ [{ lap_number := 12, driver_number := 1, duration := some 0, tyre := some "SOFT" }]

/-- C6 counterexample: on `zeroDurLaps` the source sees only 11 usable SOFT
points and returns no estimate, while the grouping described by the claim
(discarding only laps missing a compound or a duration) sees 12 points and
produces one — so the claim's description of the discard rule does not match
the code. -/
theorem inferDegradationFromLaps_cex :
    inferDegradationFromLaps zeroDurLaps = none ∧
      inferDegradationClaim zeroDurLaps ≠ none := by
  constructor
  · with_unfolding_all decide
  · with_unfolding_all decide

end RaceMind
